import Mathlib

/-!
Verification of the e2ee-chat cryptographic core against its sources.

Shallow embedding of:
  * `src/lib/groups/senderKeys.ts` — the Sender-Key group ratchet
    (states, bundles, encrypt/decrypt, localStorage-backed state table);
  * `src/lib/crypto/sodium.ts` — the pairwise session layer
    (`deriveSessionKey`, `encryptMessage`, `decryptMessage`);
  * `relay-server.js` — the WebSocket relay router.

Byte strings produced by libsodium are modelled by the symbolic term
algebra `B` below: libsodium is an external library, so its primitives
(BLAKE2b, XSalsa20-Poly1305 secretbox, XChaCha20-Poly1305 AEAD, Ed25519,
X25519) are idealised in the standard Dolev–Yao style.  Randomness drawn
inside the TypeScript functions (`randombytes_buf`, `crypto_sign_keypair`)
is passed in as explicit parameters.  Base64 encoding/decoding
(`to_base64` / `from_base64`) is a bijection applied at the boundaries and
is elided: a `B` value stands both for the raw bytes and for their base64
text.  JavaScript `number` indices are modelled as `Int`.
-/

/-- Symbolic byte strings.  Constructors record exactly how a byte value
was produced by the primitives the sources call:
`str` — UTF-8 bytes of a string (`from_string`);
`rnd` — output of `randombytes_buf`, tagged by the draw;
`hash32` — `crypto_generichash(32, data, key = tag)`;
`secretbox` — `crypto_secretbox_easy(plaintext, nonce, key)`;
`aead` — `crypto_aead_xchacha20poly1305_ietf_encrypt(plaintext, nonce, key)`;
`signSec` — Ed25519 secret key from `crypto_sign_keypair`, tagged by the draw;
`signPub` — the Ed25519 public key matching a secret key;
`signDetached` — `crypto_sign_detached(message, secretKey)`;
`boxPub` — X25519 public key of the scalar (basepoint multiplication);
`boxShared` — `crypto_box_beforenm` on a valid public key, recorded as a
symmetric function of the product of the two scalars;
`boxSharedRaw` — `crypto_box_beforenm` on bytes that are not a derived
public key;
`cat` — byte concatenation. -/
inductive B where
  | str : String → B
  | rnd : Nat → B
  | hash32 : B → String → B
  | secretbox : B → B → String → B
  | aead : B → B → String → B
  | signSec : Nat → B
  | signPub : B → B
  | signDetached : B → B → B
  | boxPub : Nat → B
  | boxShared : Nat → B
  | boxSharedRaw : B → Nat → B
  | cat : B → B → B
deriving DecidableEq

/-- `crypto_sign_verify_detached(sig, msg, pk)`: in the symbolic model a
signature verifies exactly when it was produced over the same message by
the secret key matching `pk` (EUF-CMA idealisation). -/
def signVerify (sig msg pk : B) : Bool :=
  match sig with
  | B.signDetached m sk => if m = msg ∧ B.signPub sk = pk then true else false
  | _ => false

/-- `crypto_secretbox_open_easy(ct, nonce, key)`: succeeds exactly on a
ciphertext produced by `crypto_secretbox_easy` under the same key and
nonce (INT-CTXT idealisation); returns the plaintext. -/
def secretboxOpen (ct nonce key : B) : Option String :=
  match ct with
  | B.secretbox k n p => if k = key ∧ n = nonce then some p else none
  | _ => none

-- ─────────────────────────────────────────────
-- src/lib/groups/senderKeys.ts : data model
-- ─────────────────────────────────────────────

/-- `SenderKeyState` of senderKeys.ts.  The optional TS field
`signingSecretKey?` becomes `Option B`; `messageIndex : number` becomes
`Int`. -/
structure SenderKeyState where
  identityId : String
  groupId : String
  senderIdentityKey : String
  signingPublicKey : B
  signingSecretKey : Option B
  chainKey : B
  messageIndex : Int
deriving DecidableEq

/-- `SenderKeyBundlePayload` of senderKeys.ts. -/
structure SenderKeyBundlePayload where
  kind : String
  groupId : String
  senderIdentityKey : String
  signingPublicKey : B
  initialChainKey : B
deriving DecidableEq

/-- `GroupMessagePacket` of senderKeys.ts. -/
structure GroupMessagePacket where
  kind : String
  groupId : String
  senderIdentityKey : String
  signingPublicKey : B
  messageIndex : Int
  nonce : B
  ciphertext : B
  signature : B
deriving DecidableEq

/-- The localStorage array under `"sender-key-states:v1"`. -/
abbrev Store := List SenderKeyState

/-- `findState` of senderKeys.ts: first entry matching the
(identityId, groupId, senderIdentityKey) triple (`Array.prototype.find`). -/
def findState : Store → String → String → String → Option SenderKeyState
  | [], _, _, _ => none
  | s :: rest, i, g, k =>
      if s.identityId = i ∧ s.groupId = g ∧ s.senderIdentityKey = k then some s
      else findState rest i g k

/-- `upsertState` of senderKeys.ts: replace the first entry with the same
(identityId, groupId, senderIdentityKey) triple (`findIndex` + assignment),
else push at the end. -/
def upsertState : Store → SenderKeyState → Store
  | [], st => [st]
  | s :: rest, st =>
      if s.identityId = st.identityId ∧ s.groupId = st.groupId ∧
          s.senderIdentityKey = st.senderIdentityKey then st :: rest
      else s :: upsertState rest st

/-- `ratchetChainKey` of senderKeys.ts:
`nextChainKey = BLAKE2b(chainKey, "sender-key-chain")`,
`messageKey  = BLAKE2b(chainKey, "sender-key-msg")`.
Returns `(nextChainKeyB64, messageKey)`. -/
def ratchetChainKey (chainKey : B) : B × B :=
  (B.hash32 chainKey ("sender-key-chain"), B.hash32 chainKey ("sender-key-msg"))

-- ─────────────────────────────────────────────
-- senderKeys.ts : public API
-- ─────────────────────────────────────────────

/-- `ensureSelfSenderKeyState` of senderKeys.ts.  `skDraw` is the
`crypto_sign_keypair()` draw, `ckDraw` the `randombytes_buf(32)` draw.
Returns the state together with the updated store. -/
def ensureSelfSenderKeyState (all : Store) (identityId groupId identityPublicKey : String)
    (skDraw ckDraw : Nat) : SenderKeyState × Store :=
  match findState all identityId groupId identityPublicKey with
  | some existing =>
      if existing.signingSecretKey.isSome then (existing, all)
      else
        let state : SenderKeyState :=
          { identityId := identityId, groupId := groupId,
            senderIdentityKey := identityPublicKey,
            signingPublicKey := B.signPub (B.signSec skDraw),
            signingSecretKey := some (B.signSec skDraw),
            chainKey := B.rnd ckDraw, messageIndex := 0 }
        (state, upsertState all state)
  | none =>
      let state : SenderKeyState :=
        { identityId := identityId, groupId := groupId,
          senderIdentityKey := identityPublicKey,
          signingPublicKey := B.signPub (B.signSec skDraw),
          signingSecretKey := some (B.signSec skDraw),
          chainKey := B.rnd ckDraw, messageIndex := 0 }
      (state, upsertState all state)

/-- `makeSenderKeyBundlePayload` of senderKeys.ts. -/
def makeSenderKeyBundlePayload (selfState : SenderKeyState) : SenderKeyBundlePayload :=
  { kind := "sender-key-bundle", groupId := selfState.groupId,
    senderIdentityKey := selfState.senderIdentityKey,
    signingPublicKey := selfState.signingPublicKey,
    initialChainKey := selfState.chainKey }

/-- `saveSenderKeyBundle` of senderKeys.ts. -/
def saveSenderKeyBundle (all : Store) (identityId : String)
    (payload : SenderKeyBundlePayload) : Store :=
  match findState all identityId payload.groupId payload.senderIdentityKey with
  | some existing =>
      if existing.messageIndex > 0 then all
      else
        upsertState all
          { identityId := identityId, groupId := payload.groupId,
            senderIdentityKey := payload.senderIdentityKey,
            signingPublicKey := payload.signingPublicKey,
            signingSecretKey := none,
            chainKey := payload.initialChainKey, messageIndex := 0 }
  | none =>
      upsertState all
        { identityId := identityId, groupId := payload.groupId,
          senderIdentityKey := payload.senderIdentityKey,
          signingPublicKey := payload.signingPublicKey,
          signingSecretKey := none,
          chainKey := payload.initialChainKey, messageIndex := 0 }

/-- The canonical header of senderKeys.ts up to the opaque signing-key
text: `JSON.stringify({kind:"group-message", groupId, senderIdentityKey,
signingPublicKey, messageIndex})` — the part strictly before the
`signingPublicKey` value. -/
def headerPre (gid sid : String) : String :=
  "\x7b\"kind\":\"group-message\",\"groupId\":\"" ++ gid ++
    "\",\"senderIdentityKey\":\"" ++ sid ++ "\",\"signingPublicKey\":\""

/-- The part of the canonical header strictly after the `signingPublicKey`
value (decimal `messageIndex` and the closing brace). -/
def headerPost (idx : Int) : String :=
  "\",\"messageIndex\":" ++ Int.repr idx ++ "\x7d"

/-- The canonical header bytes: the JSON text with the base64 of the
signing public key spliced in the middle (the key is an opaque `B` value,
so the splice is a symbolic concatenation). -/
def headerBytes (gid sid : String) (spk : B) (idx : Int) : B :=
  B.cat (B.str (headerPre gid sid)) (B.cat spk (B.str (headerPost idx)))

/-- `toSign` / `signedBytes` of senderKeys.ts: header ‖ ciphertext. -/
def signedBytes (gid sid : String) (spk : B) (idx : Int) (ct : B) : B :=
  B.cat (headerBytes gid sid spk idx) ct

/-- The signature check performed by `decryptGroupMessageFromPacket`:
rebuild the header from the packet fields and run
`crypto_sign_verify_detached` with the packet's signing public key. -/
def packetSigOk (p : GroupMessagePacket) : Bool :=
  signVerify p.signature
    (signedBytes p.groupId p.senderIdentityKey p.signingPublicKey p.messageIndex p.ciphertext)
    p.signingPublicKey

/-- `encryptGroupMessageFromSelf` of senderKeys.ts.  `nonceDraw` is the
`randombytes_buf(NONCEBYTES)` draw.  The TS function throws when the self
state is missing or has no signing secret; this is `none`.  On success it
returns the packet and the updated store. -/
def encryptGroupMessageFromSelf (all : Store)
    (identityId groupId identityPublicKey plaintext : String)
    (nonceDraw : Nat) : Option (GroupMessagePacket × Store) :=
  match findState all identityId groupId identityPublicKey with
  | none => none
  | some state =>
      match state.signingSecretKey with
      | none => none
      | some sk =>
          let next := ratchetChainKey state.chainKey
          let newIndex := state.messageIndex + 1
          let nonce := B.rnd nonceDraw
          let ciphertext := B.secretbox next.2 nonce plaintext
          let signature :=
            B.signDetached
              (signedBytes groupId identityPublicKey state.signingPublicKey newIndex ciphertext)
              sk
          let updated : SenderKeyState :=
            { state with chainKey := next.1, messageIndex := newIndex }
          let packet : GroupMessagePacket :=
            { kind := "group-message", groupId := groupId,
              senderIdentityKey := identityPublicKey,
              signingPublicKey := state.signingPublicKey,
              messageIndex := newIndex, nonce := nonce,
              ciphertext := ciphertext, signature := signature }
          some (packet, upsertState all updated)

/-- `decryptGroupMessageFromPacket` of senderKeys.ts.  Returns the
decrypted plaintext (or `none` on any failure path, where the TS function
returns `null`) together with the store after the call. -/
def decryptGroupMessageFromPacket (all : Store) (identityId : String)
    (packet : GroupMessagePacket) : Option String × Store :=
  if packet.kind ≠ "group-message" then (none, all)
  else
    match findState all identityId packet.groupId packet.senderIdentityKey with
    | none => (none, all)
    | some state =>
        if packet.messageIndex ≤ state.messageIndex then (none, all)
        else
          let next := ratchetChainKey state.chainKey
          if packetSigOk packet then
            match secretboxOpen packet.ciphertext packet.nonce next.2 with
            | none => (none, all)
            | some plaintext =>
                (some plaintext,
                  upsertState all
                    { state with chainKey := next.1, messageIndex := packet.messageIndex })
          else (none, all)

-- ─────────────────────────────────────────────
-- src/lib/crypto/sodium.ts : session layer
-- ─────────────────────────────────────────────

/-- Return record of `deriveSessionKey` of sodium.ts. -/
structure DerivedSessionKey where
  key : B
  theirPublicKey : B
deriving DecidableEq

/-- `crypto_box_beforenm(theirPub, mySecret)`.  X25519 scalars are `Nat`;
on a valid public key `boxPub t` the result is recorded as a function of
the scalar product `t * mySecret`, which is what makes the Diffie–Hellman
shared value symmetric.  On bytes that are not a derived public key the
result is an opaque value of both inputs. -/
def cryptoBoxBeforenm (theirPub : B) (mySecret : Nat) : B :=
  match theirPub with
  | B.boxPub t => B.boxShared (t * mySecret)
  | p => B.boxSharedRaw p mySecret

/-- `deriveSessionKey` of sodium.ts: decode both keys, run
`crypto_box_beforenm`, return `{key, theirPublicKey}`. -/
def deriveSessionKey (mySecretKey : Nat) (theirPublicKey : B) : DerivedSessionKey :=
  { key := cryptoBoxBeforenm theirPublicKey mySecretKey,
    theirPublicKey := theirPublicKey }

/-- Errors surfaced by the session layer (the TS functions throw). -/
inductive CryptoError where
  | authenticationFailure
deriving DecidableEq

/-- `encryptMessage` of sodium.ts: fresh random nonce (`nonceDraw`),
XChaCha20-Poly1305 AEAD under the shared key; returns
`{ciphertext, nonce}`. -/
def encryptMessage (sharedKey : B) (plaintext : String) (nonceDraw : Nat) : B × B :=
  (B.aead sharedKey (B.rnd nonceDraw) plaintext, B.rnd nonceDraw)

/-- `decryptMessage` of sodium.ts:
`crypto_aead_xchacha20poly1305_ietf_decrypt` throws unless the ciphertext
was produced under the same key and nonce (INT-CTXT idealisation). -/
def decryptMessage (sharedKey nonce ciphertext : B) : Except CryptoError String :=
  match ciphertext with
  | B.aead k n p =>
      if k = sharedKey ∧ n = nonce then Except.ok p
      else Except.error CryptoError.authenticationFailure
  | _ => Except.error CryptoError.authenticationFailure

-- ─────────────────────────────────────────────
-- relay-server.js : connection registry and router
-- ─────────────────────────────────────────────

/-- A live transport handle (a `WebSocket` object identity). -/
abbrev Conn := Nat

/-- The relay's `connections` map: publicKey → set of sockets, modelled
as an association list of key/connection-list pairs. -/
abbrev Registry := List (String × List Conn)

/-- `connections.get(publicKey)`. -/
def regGet : Registry → String → Option (List Conn)
  | [], _ => none
  | (k, cs) :: rest, key => if k = key then some cs else regGet rest key

/-- `registerConnection` of relay-server.js: add the socket to the key's
set, creating the entry if absent (sets: no duplicate handles). -/
def registerConnection : Registry → String → Conn → Registry
  | [], key, ws => [(key, [ws])]
  | (k, cs) :: rest, key, ws =>
      if k = key then (k, if ws ∈ cs then cs else cs ++ [ws]) :: rest
      else (k, cs) :: registerConnection rest key ws

/-- `unregisterConnection` of relay-server.js: remove the socket from
every key's set and prune keys whose set becomes empty. -/
def unregisterConnection (reg : Registry) (ws : Conn) : Registry :=
  (reg.map (fun e => (e.1, e.2.filter (fun c => c ≠ ws)))).filter
    (fun e => ¬ e.2 = [])

/-- A parsed wire envelope (the JSON `type` discriminator becomes a sum
type; `from` is a Lean keyword, so the fields are `fromKey` / `toKey`). -/
inductive Envelope where
  | register (publicKey : String)
  | message (fromKey toKey ciphertext nonce timestamp : String) (groupId : Option String)
  | groupEvent (fromKey : String) (toKeys : List String) (event : String)
  | senderKey (fromKey : String) (toKeys : List String) (ciphertext nonce timestamp : String)
  | groupMessage (fromKey : String) (toKeys : List String) (packet : GroupMessagePacket)
  | unknown
deriving DecidableEq

/-- What the relay writes back to a socket (the forwarded JSON payload,
kept structured rather than re-serialised). -/
inductive RelayPayload where
  | message (fromKey ciphertext nonce timestamp : String) (groupId : Option String)
  | groupEvent (fromKey : String) (event : String)
  | senderKey (fromKey : String) (ciphertext nonce timestamp : String)
  | groupMessage (fromKey : String) (packet : GroupMessagePacket)
deriving DecidableEq

/-- Deliver a payload to every open socket of one recipient set
(the `for (const client of recSet) if (client.readyState === OPEN)` loop). -/
def deliverTo (ready : Conn → Bool) (cs : List Conn) (p : RelayPayload) :
    List (Conn × RelayPayload) :=
  (cs.filter ready).map (fun c => (c, p))

/-- Fan out to a recipient list, skipping keys with no live connections
(the shared loop of the group-event / sender-key / group-message
branches). -/
def fanOut (reg : Registry) (ready : Conn → Bool) (toKeys : List String)
    (p : RelayPayload) : List (Conn × RelayPayload) :=
  toKeys.flatMap (fun pk =>
    match regGet reg pk with
    | none => []
    | some cs => if cs = [] then [] else deliverTo ready cs p)

/-- The relay's `ws.on("message")` handler: dispatch on the envelope type
and return the registry after the event together with the list of
(socket, payload) sends it performed.  `ready` is each socket's
`readyState === OPEN`; `self` is the socket the envelope arrived on. -/
def handleEnvelope (reg : Registry) (ready : Conn → Bool) (self : Conn)
    (env : Envelope) : Registry × List (Conn × RelayPayload) :=
  match env with
  | Envelope.register publicKey => (registerConnection reg publicKey self, [])
  | Envelope.message fromKey toKey ciphertext nonce timestamp groupId =>
      match regGet reg toKey with
      | none => (reg, [])
      | some cs =>
          if cs = [] then (reg, [])
          else (reg, deliverTo ready cs (RelayPayload.message fromKey ciphertext nonce timestamp groupId))
  | Envelope.groupEvent fromKey toKeys event =>
      (reg, fanOut reg ready toKeys (RelayPayload.groupEvent fromKey event))
  | Envelope.senderKey fromKey toKeys ciphertext nonce timestamp =>
      (reg, fanOut reg ready toKeys (RelayPayload.senderKey fromKey ciphertext nonce timestamp))
  | Envelope.groupMessage fromKey toKeys packet =>
      (reg, fanOut reg ready toKeys (RelayPayload.groupMessage fromKey packet))
  | Envelope.unknown => (reg, [])

-- ─────────────────────────────────────────────
-- Store lemmas
-- ─────────────────────────────────────────────

/-- After `upsertState all st`, looking up the key triple of `st` finds
exactly `st`. -/
theorem findState_upsert_self (all : Store) (st : SenderKeyState) :
    findState (upsertState all st) st.identityId st.groupId st.senderIdentityKey = some st := by
  induction all with
  | nil => simp [upsertState, findState]
  | cons s rest ih =>
      by_cases h : s.identityId = st.identityId ∧ s.groupId = st.groupId ∧
          s.senderIdentityKey = st.senderIdentityKey
      · simp [upsertState, h, findState]
      · simp only [upsertState, if_neg h, findState]
        exact ih

/-- `upsertState` does not change lookups for other key triples. -/
theorem findState_upsert_other (all : Store) (st : SenderKeyState)
    (i g k : String)
    (h : ¬ (st.identityId = i ∧ st.groupId = g ∧ st.senderIdentityKey = k)) :
    findState (upsertState all st) i g k = findState all i g k := by
  induction all with
  | nil =>
      simp only [upsertState, findState, if_neg h]
  | cons s rest ih =>
      by_cases hs : s.identityId = st.identityId ∧ s.groupId = st.groupId ∧
          s.senderIdentityKey = st.senderIdentityKey
      · have hsk : ¬ (s.identityId = i ∧ s.groupId = g ∧ s.senderIdentityKey = k) := by
          intro hc
          exact h ⟨hs.1 ▸ hc.1, hs.2.1 ▸ hc.2.1, hs.2.2 ▸ hc.2.2⟩
        simp only [upsertState, if_pos hs, findState, if_neg h, if_neg hsk]
      · simp only [upsertState, if_neg hs, findState]
        by_cases hk : s.identityId = i ∧ s.groupId = g ∧ s.senderIdentityKey = k
        · rw [if_pos hk, if_pos hk]
        · rw [if_neg hk, if_neg hk]
          exact ih

/-- Every member of `upsertState all st` is `st` or a member of `all`. -/
theorem mem_upsertState {s : SenderKeyState} {all : Store} {st : SenderKeyState}
    (h : s ∈ upsertState all st) : s = st ∨ s ∈ all := by
  induction all with
  | nil => simpa [upsertState] using h
  | cons x rest ih =>
      by_cases hx : x.identityId = st.identityId ∧ x.groupId = st.groupId ∧
          x.senderIdentityKey = st.senderIdentityKey
      · simp only [upsertState, if_pos hx, List.mem_cons] at h
        rcases h with h | h
        · exact Or.inl h
        · exact Or.inr (List.mem_cons_of_mem _ h)
      · simp only [upsertState, if_neg hx, List.mem_cons] at h
        rcases h with h | h
        · subst h
          exact Or.inr (List.mem_cons_self _ _)
        · rcases ih h with h1 | h1
          · exact Or.inl h1
          · exact Or.inr (List.mem_cons_of_mem _ h1)

/-- A successful `findState` returns a member of the store whose key
fields match the query. -/
theorem findState_mem {all : Store} {i g k : String} {s : SenderKeyState}
    (h : findState all i g k = some s) :
    s ∈ all ∧ s.identityId = i ∧ s.groupId = g ∧ s.senderIdentityKey = k := by
  induction all with
  | nil => simp [findState] at h
  | cons x rest ih =>
      by_cases hx : x.identityId = i ∧ x.groupId = g ∧ x.senderIdentityKey = k
      · simp only [findState, if_pos hx, Option.some.injEq] at h
        subst h
        exact ⟨List.mem_cons_self x rest, hx.1, hx.2.1, hx.2.2⟩
      · simp only [findState, if_neg hx] at h
        rcases ih h with ⟨hm, h1, h2, h3⟩
        exact ⟨List.mem_cons_of_mem _ hm, h1, h2, h3⟩

-- ─────────────────────────────────────────────
-- Decimal representation: injectivity of Nat.repr / Int.repr
-- (needed because the counter is serialised into the signed JSON header)
-- ─────────────────────────────────────────────

/-- The decimal digits of a natural number (fuel-free restatement of
`Nat.toDigits 10`). -/
def decDigits (n : Nat) : List Char :=
  if h : n < 10 then [Nat.digitChar n]
  else decDigits (n / 10) ++ [Nat.digitChar (n % 10)]
termination_by n
decreasing_by
  exact Nat.div_lt_self (by omega) (by omega)

theorem toDigitsCore_eq_decDigits :
    ∀ (f n : Nat) (acc : List Char), n < f →
      Nat.toDigitsCore 10 f n acc = decDigits n ++ acc := by
  intro f
  induction f with
  | zero => omega
  | succ f ih =>
      intro n acc h
      by_cases h10 : n / 10 = 0
      · have hn : n < 10 := by omega
        rw [Nat.toDigitsCore]
        simp only [h10, if_pos rfl]
        conv_rhs => rw [decDigits]
        simp [hn, Nat.mod_eq_of_lt hn]
      · have hge : 10 ≤ n := by omega
        rw [Nat.toDigitsCore]
        simp only [h10, if_neg h10]
        rw [ih (n / 10) _ (by omega)]
        conv_rhs => rw [decDigits]
        simp only [dif_neg (show ¬ n < 10 by omega), List.append_assoc,
          List.singleton_append]
        simp

/-- `Nat.repr` is the string of `decDigits`. -/
theorem natRepr_eq_decDigits (n : Nat) : Nat.repr n = (decDigits n).asString := by
  show (Nat.toDigits 10 n).asString = (decDigits n).asString
  rw [Nat.toDigits, toDigitsCore_eq_decDigits (n + 1) n [] (Nat.lt_succ_self n)]
  simp

theorem digitChar_val {k : Nat} (h : k < 10) : (Nat.digitChar k).toNat - 48 = k := by
  interval_cases k <;> decide

theorem digitChar_ge {k : Nat} (h : k < 10) : 48 ≤ (Nat.digitChar k).toNat := by
  interval_cases k <;> decide

theorem foldl_decDigits (n : Nat) :
    ∀ a : Nat,
      List.foldl (fun a c => 10 * a + (c.toNat - 48)) a (decDigits n) =
        a * 10 ^ (decDigits n).length + n := by
  induction n using Nat.strong_induction_on with
  | _ n ih =>
      intro a
      by_cases h : n < 10
      · rw [decDigits]
        simp only [dif_pos h, List.foldl_cons, List.foldl_nil, List.length_cons,
          List.length_nil]
        rw [digitChar_val h]
        have : (10 : Nat) ^ (0 + 1) = 10 := by norm_num
        rw [this]
        ring
      · rw [decDigits]
        simp only [dif_neg h, List.foldl_append, List.foldl_cons, List.foldl_nil,
          List.length_append, List.length_cons, List.length_nil]
        rw [ih (n / 10) (Nat.div_lt_self (by omega) (by omega)) a]
        rw [digitChar_val (Nat.mod_lt _ (by omega))]
        have hn : 10 * (n / 10) + n % 10 = n := Nat.div_add_mod n 10
        rw [pow_succ]
        ring_nf
        omega

theorem decDigits_injective {m n : Nat} (h : decDigits m = decDigits n) : m = n := by
  have h1 := foldl_decDigits m 0
  have h2 := foldl_decDigits n 0
  rw [h] at h1
  rw [h1] at h2
  omega

theorem natRepr_injective {m n : Nat} (h : Nat.repr m = Nat.repr n) : m = n := by
  rw [natRepr_eq_decDigits, natRepr_eq_decDigits] at h
  have : decDigits m = decDigits n := congrArg String.data h
  exact decDigits_injective this

theorem decDigits_all_digits {n : Nat} :
    ∀ c ∈ decDigits n, 48 ≤ c.toNat := by
  induction n using Nat.strong_induction_on with
  | _ n ih =>
      intro c hc
      by_cases h : n < 10
      · rw [decDigits] at hc
        simp only [dif_pos h, List.mem_singleton] at hc
        subst hc
        exact digitChar_ge h
      · rw [decDigits] at hc
        simp only [dif_neg h, List.mem_append, List.mem_singleton] at hc
        rcases hc with hc | hc
        · exact ih (n / 10) (Nat.div_lt_self (by omega) (by omega)) c hc
        · subst hc
          exact digitChar_ge (Nat.mod_lt _ (by omega))

/-- `Int.repr` is injective: distinct counters have distinct JSON decimal
texts. -/
theorem intRepr_injective {i j : Int} (h : Int.repr i = Int.repr j) : i = j := by
  cases i with
  | ofNat m =>
      cases j with
      | ofNat k =>
          simp only [Int.repr] at h
          exact congrArg Int.ofNat (natRepr_injective h)
      | negSucc k =>
          exfalso
          simp only [Int.repr] at h
          have hdata : (Nat.repr m).data = ('-' :: (Nat.repr (k + 1)).data) :=
            congrArg String.data h
          rw [natRepr_eq_decDigits] at hdata
          have hm : '-' ∈ decDigits m := by
            rw [show ((decDigits m).asString).data = decDigits m from rfl] at hdata
            rw [hdata]
            exact List.mem_cons_self _ _
          have hge := decDigits_all_digits _ hm
          exact absurd hge (by decide)
  | negSucc m =>
      cases j with
      | ofNat k =>
          exfalso
          simp only [Int.repr] at h
          have hdata : ('-' :: (Nat.repr (m + 1)).data) = (Nat.repr k).data :=
            congrArg String.data h
          rw [natRepr_eq_decDigits k] at hdata
          have hm : '-' ∈ decDigits k := by
            rw [show ((decDigits k).asString).data = decDigits k from rfl] at hdata
            rw [← hdata]
            exact List.mem_cons_self _ _
          have hge := decDigits_all_digits _ hm
          exact absurd hge (by decide)
      | negSucc k =>
          simp only [Int.repr] at h
          have hdata : ('-' :: (Nat.repr (m + 1)).data) = ('-' :: (Nat.repr (k + 1)).data) :=
            congrArg String.data h
          have hd : (Nat.repr (m + 1)).data = (Nat.repr (k + 1)).data := by
            injection hdata
          have := natRepr_injective (String.ext hd)
          have hmk : m = k := by omega
          rw [hmk]

-- ─────────────────────────────────────────────
-- Header injectivity
-- ─────────────────────────────────────────────

/-- Two headers over the same sender and signing key have equal prefixes
only for equal group ids. -/
theorem headerPre_inj {g1 g2 s : String} (h : headerPre g1 s = headerPre g2 s) :
    g1 = g2 := by
  have hd := congrArg String.data h
  simp only [headerPre, String.data_append, List.append_assoc] at hd
  have h1 := List.append_cancel_left hd
  exact String.ext (List.append_cancel_right h1)

/-- Two header suffixes are equal only for equal counters. -/
theorem headerPost_inj {i j : Int} (h : headerPost i = headerPost j) : i = j := by
  have hd := congrArg String.data h
  simp only [headerPost, String.data_append, List.append_assoc] at hd
  have h1 := List.append_cancel_left hd
  exact intRepr_injective (String.ext (List.append_cancel_right h1))

/-- The signed bytes determine the group id and the counter (for a fixed
sender, signing key and ciphertext). -/
theorem signedBytes_inj {g1 g2 s : String} {spk : B} {i1 i2 : Int} {ct : B}
    (h : signedBytes g1 s spk i1 ct = signedBytes g2 s spk i2 ct) :
    g1 = g2 ∧ i1 = i2 := by
  simp only [signedBytes, headerBytes, B.cat.injEq, B.str.injEq] at h
  exact ⟨headerPre_inj h.1.1, headerPost_inj h.1.2.2⟩

-- ─────────────────────────────────────────────
-- Claim theorems
-- ─────────────────────────────────────────────

/-- Claim C7 — shared-secret symmetry: for valid X25519 key pairs
`(a, boxPub a)` and `(b, boxPub b)`, `deriveSessionKey(a, B)` and
`deriveSessionKey(b, A)` produce the same shared key.  `deriveSessionKey`
is a Lean function of its two arguments, hence pure and deterministic by
construction. -/
theorem deriveSessionKey_symm (a b : Nat) :
    (deriveSessionKey a (B.boxPub b)).key = (deriveSessionKey b (B.boxPub a)).key := by
  simp [deriveSessionKey, cryptoBoxBeforenm, Nat.mul_comm]

/-- Claim C8 — AEAD round trip and fail-closed decryption: decrypting the
ciphertext produced by `encryptMessage K P` with the nonce it returned
yields `P`; decrypting it under any other key fails with
`AuthenticationFailure`; and any ciphertext that is not an encryption
under `(K, nonce)` — which, under the INT-CTXT idealisation, includes
every bit-flipped version of a genuine ciphertext — fails with
`AuthenticationFailure`. -/
theorem encryptMessage_roundtrip_fail_closed (K : B) (P : String) (r : Nat) :
    decryptMessage K (encryptMessage K P r).2 (encryptMessage K P r).1 = Except.ok P ∧
    (∀ K2 : B, K2 ≠ K →
      decryptMessage K2 (encryptMessage K P r).2 (encryptMessage K P r).1 =
        Except.error CryptoError.authenticationFailure) ∧
    (∀ c : B, (∀ p : String, c ≠ B.aead K (B.rnd r) p) →
      decryptMessage K (B.rnd r) c = Except.error CryptoError.authenticationFailure) := by
  refine ⟨by simp [encryptMessage, decryptMessage], ?_, ?_⟩
  · intro K2 hne
    simp [encryptMessage, decryptMessage, Ne.symm hne]
  · intro c hc
    cases c <;> simp [decryptMessage]
    case aead k n p =>
      intro hk hn
      subst hk
      subst hn
      exact absurd rfl (hc p)

theorem encryptMessage_roundtrip_fail_closed_witness :
    decryptMessage (B.rnd 0) (encryptMessage (B.rnd 0) ("hello") 1).2
        (encryptMessage (B.rnd 0) ("hello") 1).1 = Except.ok ("hello") ∧
    decryptMessage (B.rnd 2) (encryptMessage (B.rnd 0) ("hello") 1).2
        (encryptMessage (B.rnd 0) ("hello") 1).1 =
      Except.error CryptoError.authenticationFailure ∧
    decryptMessage (B.rnd 0) (B.rnd 1) (B.str ("junk")) =
      Except.error CryptoError.authenticationFailure :=
  ⟨(encryptMessage_roundtrip_fail_closed (B.rnd 0) ("hello") 1).1,
    (encryptMessage_roundtrip_fail_closed (B.rnd 0) ("hello") 1).2.1 (B.rnd 2) (by decide),
    (encryptMessage_roundtrip_fail_closed (B.rnd 0) ("hello") 1).2.2 (B.str ("junk"))
      (fun p h => B.noConfusion h)⟩

/-- Claim C9 — relay offline drop: a `message` envelope whose `to` key has
no entry (or an empty entry) in the connection registry produces zero
deliveries, sends nothing back to the sender's connection, and leaves the
registry unchanged. -/
theorem relay_offline_drop (reg : Registry) (ready : Conn → Bool) (self : Conn)
    (fromKey toKey ciphertext nonce timestamp : String) (groupId : Option String)
    (h : regGet reg toKey = none ∨ regGet reg toKey = some []) :
    handleEnvelope reg ready self
      (Envelope.message fromKey toKey ciphertext nonce timestamp groupId) = (reg, []) := by
  rcases h with h | h <;> simp [handleEnvelope, h]

theorem relay_offline_drop_witness :
    handleEnvelope [(("k" : String), ([] : List Conn))] (fun _ => true) 0
      (Envelope.message ("a") ("k") ("c") ("n") ("t") none) = ([(("k" : String), ([] : List Conn))], []) :=
  relay_offline_drop _ _ _ _ _ _ _ _ _ (Or.inr rfl)

/-- Characterisation of `decryptGroupMessageFromPacket`: it either fails,
returning `null` and the unchanged store, or finds a state with a strictly
smaller index, passes the signature check, decrypts, and persists the
ratcheted state at the packet's index. -/
theorem decrypt_cases (all : Store) (identityId : String) (pkt : GroupMessagePacket) :
    decryptGroupMessageFromPacket all identityId pkt = (none, all) ∨
    ∃ state pt, findState all identityId pkt.groupId pkt.senderIdentityKey = some state ∧
      state.messageIndex < pkt.messageIndex ∧
      packetSigOk pkt = true ∧
      secretboxOpen pkt.ciphertext pkt.nonce (ratchetChainKey state.chainKey).2 = some pt ∧
      decryptGroupMessageFromPacket all identityId pkt =
        (some pt,
          upsertState all
            { state with chainKey := (ratchetChainKey state.chainKey).1,
                         messageIndex := pkt.messageIndex }) := by
  by_cases hk : pkt.kind = "group-message"
  · cases hfind : findState all identityId pkt.groupId pkt.senderIdentityKey with
    | none => exact Or.inl (by simp [decryptGroupMessageFromPacket, hk, hfind])
    | some state =>
        by_cases hstale : pkt.messageIndex ≤ state.messageIndex
        · exact Or.inl (by simp [decryptGroupMessageFromPacket, hk, hfind, hstale])
        · by_cases hsig : packetSigOk pkt = true
          · cases hopen : secretboxOpen pkt.ciphertext pkt.nonce (ratchetChainKey state.chainKey).2 with
            | none =>
                exact Or.inl (by simp [decryptGroupMessageFromPacket, hk, hfind, hstale, hsig, hopen])
            | some pt =>
                refine Or.inr ⟨state, pt, rfl, by omega, hsig, hopen, ?_⟩
                simp [decryptGroupMessageFromPacket, hk, hfind, hstale, hsig, hopen]
          · have hsig2 : packetSigOk pkt = false := by
              cases h2 : packetSigOk pkt with
              | true => exact absurd h2 hsig
              | false => rfl
            exact Or.inl (by simp [decryptGroupMessageFromPacket, hk, hfind, hstale, hsig2])
  · exact Or.inl (by simp [decryptGroupMessageFromPacket, hk])

/-- Claim C4 — stale or duplicate counters are rejected: when the packet's
counter does not exceed the stored index, decryption returns `null` and
the store — in particular the state's `chainKey` and `messageIndex` — is
exactly what it was before the call. -/
theorem decrypt_stale_reject (all : Store) (identityId : String)
    (packet : GroupMessagePacket) (state : SenderKeyState)
    (hfind : findState all identityId packet.groupId packet.senderIdentityKey = some state)
    (hstale : packet.messageIndex ≤ state.messageIndex) :
    decryptGroupMessageFromPacket all identityId packet = (none, all) := by
  by_cases hk : packet.kind = "group-message"
  · simp [decryptGroupMessageFromPacket, hk, hfind, hstale]
  · simp [decryptGroupMessageFromPacket, hk]

theorem decrypt_stale_reject_witness :
    decryptGroupMessageFromPacket
        [⟨("i"), ("g"), ("s"), B.signPub (B.signSec 0), none, B.rnd 1, 3⟩] ("i")
        ⟨("group-message"), ("g"), ("s"), B.signPub (B.signSec 0), 2, B.rnd 2,
          B.rnd 3, B.rnd 4⟩ =
      (none, [⟨("i"), ("g"), ("s"), B.signPub (B.signSec 0), none, B.rnd 1, 3⟩]) :=
  decrypt_stale_reject _ _ _
    ⟨("i"), ("g"), ("s"), B.signPub (B.signSec 0), none, B.rnd 1, 3⟩
    (by decide) (by decide)

/-- Claim C5 — anti-rollback on bundle application: a bundle for a
(groupId, sender) whose local state has progressed (`messageIndex > 0`)
leaves the whole store unchanged; otherwise the bundle's
`signingPublicKey` and `initialChainKey` are stored at `messageIndex = 0`
(with no signing secret). -/
theorem saveSenderKeyBundle_anti_rollback (all : Store) (identityId : String)
    (payload : SenderKeyBundlePayload) :
    (∀ existing,
        findState all identityId payload.groupId payload.senderIdentityKey = some existing →
        existing.messageIndex > 0 →
        saveSenderKeyBundle all identityId payload = all) ∧
    ((∀ existing,
        findState all identityId payload.groupId payload.senderIdentityKey = some existing →
        existing.messageIndex ≤ 0) →
      findState (saveSenderKeyBundle all identityId payload) identityId
          payload.groupId payload.senderIdentityKey =
        some { identityId := identityId, groupId := payload.groupId,
               senderIdentityKey := payload.senderIdentityKey,
               signingPublicKey := payload.signingPublicKey,
               signingSecretKey := none,
               chainKey := payload.initialChainKey, messageIndex := 0 }) := by
  constructor
  · intro ex hex hpos
    simp [saveSenderKeyBundle, hex, hpos]
  · intro hle
    cases hfind : findState all identityId payload.groupId payload.senderIdentityKey with
    | none =>
        simp only [saveSenderKeyBundle, hfind]
        simpa using findState_upsert_self all _
    | some ex =>
        have hx := hle ex hfind
        simp only [saveSenderKeyBundle, hfind, if_neg (by omega : ¬ ex.messageIndex > 0)]
        simpa using findState_upsert_self all _

theorem saveSenderKeyBundle_anti_rollback_witness :
    saveSenderKeyBundle
        [⟨("i"), ("g"), ("s"), B.signPub (B.signSec 0), none, B.rnd 1, 3⟩] ("i")
        ⟨("sender-key-bundle"), ("g"), ("s"), B.signPub (B.signSec 9), B.rnd 9⟩ =
      [⟨("i"), ("g"), ("s"), B.signPub (B.signSec 0), none, B.rnd 1, 3⟩] ∧
    findState
        (saveSenderKeyBundle ([] : Store) ("i")
          ⟨("sender-key-bundle"), ("g"), ("s"), B.signPub (B.signSec 9), B.rnd 9⟩)
        ("i") ("g") ("s") =
      some ⟨("i"), ("g"), ("s"), B.signPub (B.signSec 9), none, B.rnd 9, 0⟩ :=
  ⟨(saveSenderKeyBundle_anti_rollback _ _ _).1
      ⟨("i"), ("g"), ("s"), B.signPub (B.signSec 0), none, B.rnd 1, 3⟩
      (by decide) (by decide),
    (saveSenderKeyBundle_anti_rollback ([] : Store) ("i") _).2
      (fun ex hex => by simp [findState] at hex)⟩

/-- Claim C3 (amended) — for every successful `encryptGroupMessageFromSelf`
call with stored state at `messageIndex = i`, the returned wire payload
carries `counter = i + 1` (the index **after** the advance — the source
computes `newIndex = state.messageIndex + 1` and places `newIndex` in the
packet), and the stored state is persisted with `chainKey` replaced by the
next chain key and `messageIndex = i + 1` before returning. -/
theorem encrypt_advances_state (all : Store)
    (identityId groupId identityPublicKey plaintext : String) (nonceDraw : Nat)
    (state : SenderKeyState) (sk : B)
    (hfind : findState all identityId groupId identityPublicKey = some state)
    (hsk : state.signingSecretKey = some sk) :
    encryptGroupMessageFromSelf all identityId groupId identityPublicKey plaintext nonceDraw =
      some
        ({ kind := "group-message", groupId := groupId,
           senderIdentityKey := identityPublicKey,
           signingPublicKey := state.signingPublicKey,
           messageIndex := state.messageIndex + 1,
           nonce := B.rnd nonceDraw,
           ciphertext :=
             B.secretbox (ratchetChainKey state.chainKey).2 (B.rnd nonceDraw) plaintext,
           signature :=
             B.signDetached
               (signedBytes groupId identityPublicKey state.signingPublicKey
                 (state.messageIndex + 1)
                 (B.secretbox (ratchetChainKey state.chainKey).2 (B.rnd nonceDraw) plaintext))
               sk },
          upsertState all
            { state with chainKey := (ratchetChainKey state.chainKey).1,
                         messageIndex := state.messageIndex + 1 }) ∧
    findState
        (upsertState all
          { state with chainKey := (ratchetChainKey state.chainKey).1,
                       messageIndex := state.messageIndex + 1 })
        identityId groupId identityPublicKey =
      some { state with chainKey := (ratchetChainKey state.chainKey).1,
                        messageIndex := state.messageIndex + 1 } := by
  constructor
  · simp [encryptGroupMessageFromSelf, hfind, hsk]
  · have hkeys := findState_mem hfind
    have hself :=
      findState_upsert_self all
        { state with chainKey := (ratchetChainKey state.chainKey).1,
                     messageIndex := state.messageIndex + 1 }
    simpa [hkeys.2.1, hkeys.2.2.1, hkeys.2.2.2] using hself

theorem encrypt_advances_state_witness :
    encryptGroupMessageFromSelf
        [⟨("i"), ("g"), ("p"), B.signPub (B.signSec 0), some (B.signSec 0), B.rnd 1, 0⟩]
        ("i") ("g") ("p") ("m") 2 =
      some
        ({ kind := "group-message", groupId := ("g"), senderIdentityKey := ("p"),
           signingPublicKey := B.signPub (B.signSec 0), messageIndex := 1,
           nonce := B.rnd 2,
           ciphertext := B.secretbox (ratchetChainKey (B.rnd 1)).2 (B.rnd 2) ("m"),
           signature :=
             B.signDetached
               (signedBytes ("g") ("p") (B.signPub (B.signSec 0)) 1
                 (B.secretbox (ratchetChainKey (B.rnd 1)).2 (B.rnd 2) ("m")))
               (B.signSec 0) },
          [⟨("i"), ("g"), ("p"), B.signPub (B.signSec 0), some (B.signSec 0),
            (ratchetChainKey (B.rnd 1)).1, 1⟩]) ∧
    findState
        [⟨("i"), ("g"), ("p"), B.signPub (B.signSec 0), some (B.signSec 0),
          (ratchetChainKey (B.rnd 1)).1, 1⟩] ("i") ("g") ("p") =
      some ⟨("i"), ("g"), ("p"), B.signPub (B.signSec 0), some (B.signSec 0),
        (ratchetChainKey (B.rnd 1)).1, 1⟩ :=
  encrypt_advances_state _ ("i") ("g") ("p") ("m") 2
    ⟨("i"), ("g"), ("p"), B.signPub (B.signSec 0), some (B.signSec 0), B.rnd 1, 0⟩
    (B.signSec 0) (by decide) rfl

/-- Counterexample to claim C3 as stated: with the stored state at
`messageIndex = 0`, the packet produced by a successful encrypt call
carries `messageIndex = 1` — the post-advance index — not the pre-advance
index 0 the claim requires. -/
theorem encrypt_counter_is_post_advance :
    encryptGroupMessageFromSelf
        [⟨("i"), ("g"), ("p"), B.signPub (B.signSec 0), some (B.signSec 0), B.rnd 1, 0⟩]
        ("i") ("g") ("p") ("m") 2 =
      some
        ({ kind := "group-message", groupId := ("g"), senderIdentityKey := ("p"),
           signingPublicKey := B.signPub (B.signSec 0), messageIndex := 1,
           nonce := B.rnd 2,
           ciphertext := B.secretbox (ratchetChainKey (B.rnd 1)).2 (B.rnd 2) ("m"),
           signature :=
             B.signDetached
               (signedBytes ("g") ("p") (B.signPub (B.signSec 0)) 1
                 (B.secretbox (ratchetChainKey (B.rnd 1)).2 (B.rnd 2) ("m")))
               (B.signSec 0) },
          [⟨("i"), ("g"), ("p"), B.signPub (B.signSec 0), some (B.signSec 0),
            (ratchetChainKey (B.rnd 1)).1, 1⟩]) ∧
    (1 : Int) ≠ 0 := by
  constructor
  · rfl
  · decide

/-- Claim C2 (amended) — the receiver rebuilds the canonical header from
the **packet's** fields, including `packet.signingPublicKey`, and verifies
the Ed25519 signature with the packet's signing key (not the stored one);
whenever that verification fails, the call returns `null` without
attempting AEAD decryption and without mutating stored state. -/
theorem decrypt_sig_fail_no_mutation (all : Store) (identityId : String)
    (packet : GroupMessagePacket)
    (hsig : packetSigOk packet = false) :
    decryptGroupMessageFromPacket all identityId packet = (none, all) := by
  by_cases hk : packet.kind = "group-message"
  · cases hfind : findState all identityId packet.groupId packet.senderIdentityKey with
    | none => simp [decryptGroupMessageFromPacket, hk, hfind]
    | some state =>
        by_cases hstale : packet.messageIndex ≤ state.messageIndex
        · simp [decryptGroupMessageFromPacket, hk, hfind, hstale]
        · simp [decryptGroupMessageFromPacket, hk, hfind, hstale, hsig]
  · simp [decryptGroupMessageFromPacket, hk]

theorem decrypt_sig_fail_no_mutation_witness :
    decryptGroupMessageFromPacket
        [⟨("i"), ("g"), ("s"), B.signPub (B.signSec 1), none, B.rnd 5, 0⟩] ("i")
        ⟨("group-message"), ("g"), ("s"), B.signPub (B.signSec 1), 1, B.rnd 3,
          B.rnd 4, B.rnd 6⟩ =
      (none, [⟨("i"), ("g"), ("s"), B.signPub (B.signSec 1), none, B.rnd 5, 0⟩]) :=
  decrypt_sig_fail_no_mutation _ _ _ (by decide)

/-- Counterexample to claim C2 as stated: the stored state's signing key
is `signPub (signSec 1)`, the packet carries the different key
`signPub (signSec 2)` and a signature made with `signSec 2`.  Per the
claim, verification against the **stored** key must fail and decryption
must not proceed; the code instead verifies against the packet's key,
succeeds, decrypts, and mutates the stored state. -/
theorem decrypt_uses_packet_signing_key :
    (decryptGroupMessageFromPacket
        [⟨("i"), ("g"), ("s"), B.signPub (B.signSec 1), none, B.rnd 5, 0⟩] ("i")
        ⟨("group-message"), ("g"), ("s"), B.signPub (B.signSec 2), 1, B.rnd 3,
          B.secretbox (B.hash32 (B.rnd 5) ("sender-key-msg")) (B.rnd 3) ("hi"),
          B.signDetached
            (signedBytes ("g") ("s") (B.signPub (B.signSec 2)) 1
              (B.secretbox (B.hash32 (B.rnd 5) ("sender-key-msg")) (B.rnd 3) ("hi")))
            (B.signSec 2)⟩).1 = some ("hi") ∧
    B.signPub (B.signSec 2) ≠ B.signPub (B.signSec 1) := by
  constructor
  · rfl
  · decide

/-- Claim C1 — group bootstrap round trip: Alice's fresh self state
(created by `ensureSelfSenderKeyState`, exported with
`makeSenderKeyBundlePayload`) is applied by a recipient with no prior
state via `saveSenderKeyBundle` (stored at index 0); the packet of Alice's
first `encryptGroupMessageFromSelf` call then decrypts on the recipient to
the original plaintext and leaves the recipient's stored state for
(groupId, senderIdentityKey) at `messageIndex = 1`. -/
theorem group_bootstrap_roundtrip
    (plaintext gid aliceId alicePk bobId : String)
    (skDraw ckDraw nonceDraw : Nat) (bobStore0 : Store)
    (aliceState : SenderKeyState) (aliceStore : Store)
    (hAlice : ensureSelfSenderKeyState [] aliceId gid alicePk skDraw ckDraw =
      (aliceState, aliceStore))
    (hBobFresh : findState bobStore0 bobId gid alicePk = none)
    (packet : GroupMessagePacket) (aliceStore2 : Store)
    (hEnc : encryptGroupMessageFromSelf aliceStore aliceId gid alicePk plaintext nonceDraw =
      some (packet, aliceStore2))
    (bobStore1 : Store)
    (hBob1 : saveSenderKeyBundle bobStore0 bobId (makeSenderKeyBundlePayload aliceState) =
      bobStore1)
    (res : Option String) (bobStore2 : Store)
    (hDec : decryptGroupMessageFromPacket bobStore1 bobId packet = (res, bobStore2)) :
    res = some plaintext ∧
    findState bobStore2 bobId gid alicePk =
      some ⟨bobId, gid, alicePk, B.signPub (B.signSec skDraw), none,
        (ratchetChainKey (B.rnd ckDraw)).1, 1⟩ := by
  simp only [ensureSelfSenderKeyState, findState, upsertState, Prod.mk.injEq] at hAlice
  obtain ⟨hA1, hA2⟩ := hAlice
  subst hA1
  subst hA2
  have hfindA :
      findState [⟨aliceId, gid, alicePk, B.signPub (B.signSec skDraw),
        some (B.signSec skDraw), B.rnd ckDraw, 0⟩] aliceId gid alicePk =
        some ⟨aliceId, gid, alicePk, B.signPub (B.signSec skDraw),
          some (B.signSec skDraw), B.rnd ckDraw, 0⟩ := by
    simp [findState]
  have henc :=
    (encrypt_advances_state _ aliceId gid alicePk plaintext nonceDraw
      ⟨aliceId, gid, alicePk, B.signPub (B.signSec skDraw),
        some (B.signSec skDraw), B.rnd ckDraw, 0⟩
      (B.signSec skDraw) hfindA rfl).1
  have hpkt := hEnc.symm.trans henc
  simp only [Option.some.injEq, Prod.mk.injEq] at hpkt
  obtain ⟨hp1, hp2⟩ := hpkt
  subst hp1
  have hB1 : bobStore1 = upsertState bobStore0
      ⟨bobId, gid, alicePk, B.signPub (B.signSec skDraw), none, B.rnd ckDraw, 0⟩ := by
    rw [← hBob1]
    simp [saveSenderKeyBundle, makeSenderKeyBundlePayload, hBobFresh]
  subst hB1
  have hfindB := findState_upsert_self bobStore0
    ⟨bobId, gid, alicePk, B.signPub (B.signSec skDraw), none, B.rnd ckDraw, 0⟩
  have hdec2 : decryptGroupMessageFromPacket
      (upsertState bobStore0
        ⟨bobId, gid, alicePk, B.signPub (B.signSec skDraw), none, B.rnd ckDraw, 0⟩)
      bobId
      { kind := "group-message", groupId := gid, senderIdentityKey := alicePk,
        signingPublicKey := B.signPub (B.signSec skDraw), messageIndex := (0 : Int) + 1,
        nonce := B.rnd nonceDraw,
        ciphertext := B.secretbox (ratchetChainKey (B.rnd ckDraw)).2 (B.rnd nonceDraw) plaintext,
        signature :=
          B.signDetached
            (signedBytes gid alicePk (B.signPub (B.signSec skDraw)) ((0 : Int) + 1)
              (B.secretbox (ratchetChainKey (B.rnd ckDraw)).2 (B.rnd nonceDraw) plaintext))
            (B.signSec skDraw) } =
      (some plaintext,
        upsertState
          (upsertState bobStore0
            ⟨bobId, gid, alicePk, B.signPub (B.signSec skDraw), none, B.rnd ckDraw, 0⟩)
          ⟨bobId, gid, alicePk, B.signPub (B.signSec skDraw), none,
            (ratchetChainKey (B.rnd ckDraw)).1, 1⟩) := by
    simp [decryptGroupMessageFromPacket, hfindB, packetSigOk, signVerify, secretboxOpen,
      ratchetChainKey]
  have hres := hDec.symm.trans hdec2
  simp only [Prod.mk.injEq] at hres
  obtain ⟨hr1, hr2⟩ := hres
  subst hr2
  refine ⟨hr1, ?_⟩
  simpa using findState_upsert_self _
    ⟨bobId, gid, alicePk, B.signPub (B.signSec skDraw), none,
      (ratchetChainKey (B.rnd ckDraw)).1, 1⟩

theorem group_bootstrap_roundtrip_witness :
    (some ("Hello Team") : Option String) = some ("Hello Team") ∧
    findState
        [⟨("Bob"), ("G"), ("apk"), B.signPub (B.signSec 0), none,
          (ratchetChainKey (B.rnd 1)).1, 1⟩] ("Bob") ("G") ("apk") =
      some ⟨("Bob"), ("G"), ("apk"), B.signPub (B.signSec 0), none,
        (ratchetChainKey (B.rnd 1)).1, 1⟩ :=
  group_bootstrap_roundtrip ("Hello Team") ("G") ("A") ("apk") ("Bob") 0 1 2 []
    ⟨("A"), ("G"), ("apk"), B.signPub (B.signSec 0), some (B.signSec 0), B.rnd 1, 0⟩
    [⟨("A"), ("G"), ("apk"), B.signPub (B.signSec 0), some (B.signSec 0), B.rnd 1, 0⟩]
    (by decide) rfl
    { kind := ("group-message"), groupId := ("G"), senderIdentityKey := ("apk"),
      signingPublicKey := B.signPub (B.signSec 0), messageIndex := 1,
      nonce := B.rnd 2,
      ciphertext := B.secretbox (ratchetChainKey (B.rnd 1)).2 (B.rnd 2) ("Hello Team"),
      signature :=
        B.signDetached
          (signedBytes ("G") ("apk") (B.signPub (B.signSec 0)) 1
            (B.secretbox (ratchetChainKey (B.rnd 1)).2 (B.rnd 2) ("Hello Team")))
          (B.signSec 0) }
    [⟨("A"), ("G"), ("apk"), B.signPub (B.signSec 0), some (B.signSec 0),
      (ratchetChainKey (B.rnd 1)).1, 1⟩]
    (by decide)
    [⟨("Bob"), ("G"), ("apk"), B.signPub (B.signSec 0), none, B.rnd 1, 0⟩]
    (by decide)
    (some ("Hello Team"))
    [⟨("Bob"), ("G"), ("apk"), B.signPub (B.signSec 0), none,
      (ratchetChainKey (B.rnd 1)).1, 1⟩]
    (by decide)

/-- Claim C6 — signature binding: a packet signature produced by
`encryptGroupMessageFromSelf` for a given (groupId, counter, ciphertext)
fails the receiver's verification whenever the groupId or counter
presented to the verifier differs from the signed ones, holding the
ciphertext (and all other fields) fixed. -/
theorem signature_binding (all : Store)
    (identityId groupId identityPublicKey plaintext : String) (nonceDraw : Nat)
    (packet : GroupMessagePacket) (store2 : Store) (g2 : String) (c2 : Int)
    (hEnc : encryptGroupMessageFromSelf all identityId groupId identityPublicKey
      plaintext nonceDraw = some (packet, store2))
    (hdiff : g2 ≠ packet.groupId ∨ c2 ≠ packet.messageIndex) :
    packetSigOk { packet with groupId := g2, messageIndex := c2 } = false := by
  cases hfind : findState all identityId groupId identityPublicKey with
  | none => simp [encryptGroupMessageFromSelf, hfind] at hEnc
  | some state =>
      cases hsk : state.signingSecretKey with
      | none => simp [encryptGroupMessageFromSelf, hfind, hsk] at hEnc
      | some sk =>
          simp only [encryptGroupMessageFromSelf, hfind, hsk, Option.some.injEq,
            Prod.mk.injEq] at hEnc
          obtain ⟨hp, _⟩ := hEnc
          subst hp
          simp only [packetSigOk, signVerify]
          split
          next hcon =>
            exfalso
            rcases signedBytes_inj hcon.1 with ⟨hg, hc⟩
            rcases hdiff with hd | hd
            · exact hd hg.symm
            · exact hd hc.symm
          next => rfl

theorem signature_binding_witness :
    packetSigOk
        { kind := ("group-message"), groupId := ("G2"), senderIdentityKey := ("apk"),
          signingPublicKey := B.signPub (B.signSec 0), messageIndex := 1,
          nonce := B.rnd 2,
          ciphertext := B.secretbox (ratchetChainKey (B.rnd 1)).2 (B.rnd 2) ("m"),
          signature :=
            B.signDetached
              (signedBytes ("G") ("apk") (B.signPub (B.signSec 0)) 1
                (B.secretbox (ratchetChainKey (B.rnd 1)).2 (B.rnd 2) ("m")))
              (B.signSec 0) } = false :=
  signature_binding
    [⟨("A"), ("G"), ("apk"), B.signPub (B.signSec 0), some (B.signSec 0), B.rnd 1, 0⟩]
    ("A") ("G") ("apk") ("m") 2
    { kind := ("group-message"), groupId := ("G"), senderIdentityKey := ("apk"),
      signingPublicKey := B.signPub (B.signSec 0), messageIndex := 1,
      nonce := B.rnd 2,
      ciphertext := B.secretbox (ratchetChainKey (B.rnd 1)).2 (B.rnd 2) ("m"),
      signature :=
        B.signDetached
          (signedBytes ("G") ("apk") (B.signPub (B.signSec 0)) 1
            (B.secretbox (ratchetChainKey (B.rnd 1)).2 (B.rnd 2) ("m")))
          (B.signSec 0) }
    [⟨("A"), ("G"), ("apk"), B.signPub (B.signSec 0), some (B.signSec 0),
      (ratchetChainKey (B.rnd 1)).1, 1⟩]
    ("G2") 1 (by decide) (Or.inl (by decide))

-- ─────────────────────────────────────────────
-- Index invariants (claim C10)
-- ─────────────────────────────────────────────

/-- Every stored `messageIndex` is non-negative. -/
def storeNonneg (all : Store) : Prop := ∀ s ∈ all, 0 ≤ s.messageIndex

/-- The stored index for the key triple `(i, g, k)` does not decrease
from `pre` to `post`. -/
def monoAt (pre post : Store) (i g k : String) : Prop :=
  ∀ s, findState pre i g k = some s →
    ∃ t, findState post i g k = some t ∧ s.messageIndex ≤ t.messageIndex

theorem storeNonneg_upsert {all : Store} {st : SenderKeyState}
    (hinv : storeNonneg all) (hst : 0 ≤ st.messageIndex) :
    storeNonneg (upsertState all st) := by
  intro s hs
  rcases mem_upsertState hs with h | h
  · exact h ▸ hst
  · exact hinv s h

theorem monoAt_refl (all : Store) (i g k : String) : monoAt all all i g k :=
  fun s hs => ⟨s, hs, le_refl _⟩

theorem monoAt_upsert {all : Store} {st : SenderKeyState}
    (h : ∀ s, findState all st.identityId st.groupId st.senderIdentityKey = some s →
      s.messageIndex ≤ st.messageIndex) :
    ∀ i g k, monoAt all (upsertState all st) i g k := by
  intro i g k s hs
  by_cases hkey : st.identityId = i ∧ st.groupId = g ∧ st.senderIdentityKey = k
  · obtain ⟨h1, h2, h3⟩ := hkey
    subst h1
    subst h2
    subst h3
    exact ⟨st, findState_upsert_self all st, h s hs⟩
  · exact ⟨s, (findState_upsert_other all st i g k hkey).trans hs, le_refl _⟩

/-- Claim C10 (amended) — index dynamics of the sender-key operations,
assuming all stored indices are non-negative.
`saveSenderKeyBundle` preserves every existing stored `messageIndex`
exactly (so it never increases or decreases one).
A successful `encryptGroupMessageFromSelf` leaves every other key triple's
lookup unchanged and moves its own state from index `i` to exactly `i + 1`
with the ratcheted chain key.
`decryptGroupMessageFromPacket` returns `null` with the store unchanged on
every failure path; on success it leaves every other key triple's lookup
unchanged and moves the sender's state from its strictly smaller stored
index to exactly the packet's index.
`ensureSelfSenderKeyState` leaves every other key triple's lookup
unchanged, leaves the whole store unchanged when a self state holding a
signing secret exists, never increases any stored index — and (the
amendment, forced by the counterexample below) when the existing state for
its own triple lacks a signing secret it regenerates that state, storing a
fresh one at `messageIndex = 0`. -/
theorem senderKeys_index_invariants (all : Store) (hinv : storeNonneg all) :
    (∀ identityId payload,
        storeNonneg (saveSenderKeyBundle all identityId payload) ∧
        ∀ i g k s, findState all i g k = some s →
          ∃ t, findState (saveSenderKeyBundle all identityId payload) i g k = some t ∧
            t.messageIndex = s.messageIndex) ∧
    (∀ identityId groupId identityPublicKey plaintext nonceDraw packet post,
        encryptGroupMessageFromSelf all identityId groupId identityPublicKey
          plaintext nonceDraw = some (packet, post) →
        storeNonneg post ∧
        (∀ i g k, ¬ (i = identityId ∧ g = groupId ∧ k = identityPublicKey) →
          findState post i g k = findState all i g k) ∧
        ∃ state, findState all identityId groupId identityPublicKey = some state ∧
          findState post identityId groupId identityPublicKey =
            some { state with chainKey := (ratchetChainKey state.chainKey).1,
                              messageIndex := state.messageIndex + 1 }) ∧
    (∀ identityId packet res post,
        decryptGroupMessageFromPacket all identityId packet = (res, post) →
        (res = none → post = all) ∧
        storeNonneg post ∧
        ∀ pt, res = some pt →
          (∀ i g k, ¬ (i = identityId ∧ g = packet.groupId ∧ k = packet.senderIdentityKey) →
            findState post i g k = findState all i g k) ∧
          ∃ state, findState all identityId packet.groupId packet.senderIdentityKey = some state ∧
            state.messageIndex < packet.messageIndex ∧
            findState post identityId packet.groupId packet.senderIdentityKey =
              some { state with chainKey := (ratchetChainKey state.chainKey).1,
                                messageIndex := packet.messageIndex }) ∧
    (∀ identityId groupId identityPublicKey skDraw ckDraw st post,
        ensureSelfSenderKeyState all identityId groupId identityPublicKey skDraw ckDraw =
          (st, post) →
        storeNonneg post ∧
        (∀ i g k, ¬ (i = identityId ∧ g = groupId ∧ k = identityPublicKey) →
          findState post i g k = findState all i g k) ∧
        (∀ existing, findState all identityId groupId identityPublicKey = some existing →
          existing.signingSecretKey.isSome → post = all) ∧
        (∀ existing, findState all identityId groupId identityPublicKey = some existing →
          existing.signingSecretKey = none →
          findState post identityId groupId identityPublicKey =
            some ⟨identityId, groupId, identityPublicKey, B.signPub (B.signSec skDraw),
              some (B.signSec skDraw), B.rnd ckDraw, 0⟩) ∧
        ∀ i g k t s, findState post i g k = some t → findState all i g k = some s →
          t.messageIndex ≤ s.messageIndex) := by
  refine ⟨?_, ?_, ?_, ?_⟩
  · -- saveSenderKeyBundle: exact index preservation
    intro identityId payload
    cases hfind : findState all identityId payload.groupId payload.senderIdentityKey with
    | some ex =>
        by_cases hpos : ex.messageIndex > 0
        · simp only [saveSenderKeyBundle, hfind, if_pos hpos]
          exact ⟨hinv, fun i g k s hs => ⟨s, hs, rfl⟩⟩
        · simp only [saveSenderKeyBundle, hfind, if_neg hpos]
          refine ⟨storeNonneg_upsert hinv (by simp), ?_⟩
          intro i g k s hs
          by_cases hkey : i = identityId ∧ g = payload.groupId ∧ k = payload.senderIdentityKey
          · obtain ⟨h1, h2, h3⟩ := hkey
            subst h1
            subst h2
            subst h3
            rw [hfind] at hs
            cases hs
            refine ⟨_, by simpa using findState_upsert_self all _, ?_⟩
            have h0 := hinv ex (findState_mem hfind).1
            show (0 : Int) = ex.messageIndex
            omega
          · refine ⟨s, ?_, rfl⟩
            have heq := findState_upsert_other all
              ⟨identityId, payload.groupId, payload.senderIdentityKey,
                payload.signingPublicKey, none, payload.initialChainKey, 0⟩ i g k
              (fun hc => hkey ⟨hc.1.symm, hc.2.1.symm, hc.2.2.symm⟩)
            exact heq.trans hs
    | none =>
        simp only [saveSenderKeyBundle, hfind]
        refine ⟨storeNonneg_upsert hinv (by simp), ?_⟩
        intro i g k s hs
        by_cases hkey : i = identityId ∧ g = payload.groupId ∧ k = payload.senderIdentityKey
        · obtain ⟨h1, h2, h3⟩ := hkey
          subst h1
          subst h2
          subst h3
          rw [hfind] at hs
          cases hs
        · refine ⟨s, ?_, rfl⟩
          have heq := findState_upsert_other all
            ⟨identityId, payload.groupId, payload.senderIdentityKey,
              payload.signingPublicKey, none, payload.initialChainKey, 0⟩ i g k
            (fun hc => hkey ⟨hc.1.symm, hc.2.1.symm, hc.2.2.symm⟩)
          exact heq.trans hs
  · -- encryptGroupMessageFromSelf: +1 on its own triple, frame elsewhere
    intro identityId groupId identityPublicKey plaintext nonceDraw packet post hEnc
    cases hfind : findState all identityId groupId identityPublicKey with
    | none => simp [encryptGroupMessageFromSelf, hfind] at hEnc
    | some state =>
        cases hsk : state.signingSecretKey with
        | none => simp [encryptGroupMessageFromSelf, hfind, hsk] at hEnc
        | some sk =>
            simp only [encryptGroupMessageFromSelf, hfind, hsk, Option.some.injEq,
              Prod.mk.injEq] at hEnc
            obtain ⟨-, hpost⟩ := hEnc
            subst hpost
            have hmem := findState_mem hfind
            refine ⟨storeNonneg_upsert hinv ?_, ?_, ?_⟩
            · have hx := hinv state hmem.1
              show (0 : Int) ≤ state.messageIndex + 1
              omega
            · intro i g k hne
              exact findState_upsert_other all _ i g k
                (fun hc => hne ⟨hc.1.symm.trans hmem.2.1, hc.2.1.symm.trans hmem.2.2.1,
                  hc.2.2.symm.trans hmem.2.2.2⟩)
            · refine ⟨state, rfl, ?_⟩
              have hself := findState_upsert_self all
                { state with chainKey := (ratchetChainKey state.chainKey).1,
                             messageIndex := state.messageIndex + 1 }
              simpa [hmem.2.1, hmem.2.2.1, hmem.2.2.2, hsk] using hself
  · -- decryptGroupMessageFromPacket: failure frame, success fully characterised
    intro identityId packet res post hDec
    rcases decrypt_cases all identityId packet with hcase | ⟨state, pt0, hfind, hlt, -, -, hcase⟩
    · rw [hDec] at hcase
      simp only [Prod.mk.injEq] at hcase
      obtain ⟨h1, h2⟩ := hcase
      subst h1
      rw [h2]
      exact ⟨fun _ => rfl, hinv, fun pt hpt => nomatch hpt⟩
    · rw [hDec] at hcase
      simp only [Prod.mk.injEq] at hcase
      obtain ⟨h1, h2⟩ := hcase
      subst h1
      subst h2
      have hmem := findState_mem hfind
      refine ⟨(fun hno => nomatch hno), storeNonneg_upsert hinv ?_, ?_⟩
      · have hx := hinv state hmem.1
        show (0 : Int) ≤ packet.messageIndex
        omega
      · intro pt hpt
        refine ⟨?_, state, hfind, hlt, ?_⟩
        · intro i g k hne
          exact findState_upsert_other all _ i g k
            (fun hc => hne ⟨hc.1.symm.trans hmem.2.1, hc.2.1.symm.trans hmem.2.2.1,
              hc.2.2.symm.trans hmem.2.2.2⟩)
        · have hself := findState_upsert_self all
            { state with chainKey := (ratchetChainKey state.chainKey).1,
                         messageIndex := packet.messageIndex }
          simpa [hmem.2.1, hmem.2.2.1, hmem.2.2.2] using hself
  · -- ensureSelfSenderKeyState: frame, no-op with a secret, secretless reset,
    -- and no index ever increases
    intro identityId groupId identityPublicKey skDraw ckDraw st post hEns
    cases hfind : findState all identityId groupId identityPublicKey with
    | some ex =>
        by_cases hsec : ex.signingSecretKey.isSome
        · simp only [ensureSelfSenderKeyState, hfind, if_pos hsec, Prod.mk.injEq] at hEns
          obtain ⟨-, hpost⟩ := hEns
          subst hpost
          refine ⟨hinv, fun i g k hne => rfl, fun existing hex hsome => rfl, ?_, ?_⟩
          · intro existing hex hnone
            cases hex
            rw [hnone] at hsec
            simp at hsec
          · intro i g k t s ht hs
            rw [ht] at hs
            cases hs
            exact le_refl _
        · simp only [ensureSelfSenderKeyState, hfind, if_neg hsec, Prod.mk.injEq] at hEns
          obtain ⟨-, hpost⟩ := hEns
          subst hpost
          refine ⟨storeNonneg_upsert hinv (by simp), ?_, ?_, ?_, ?_⟩
          · intro i g k hne
            exact findState_upsert_other all _ i g k
              (fun hc => hne ⟨hc.1.symm, hc.2.1.symm, hc.2.2.symm⟩)
          · intro existing hex hsome
            cases hex
            exact absurd hsome hsec
          · intro existing hex hnone
            simpa using findState_upsert_self all _
          · intro i g k t s ht hs
            by_cases hkey : i = identityId ∧ g = groupId ∧ k = identityPublicKey
            · obtain ⟨h1, h2, h3⟩ := hkey
              rw [h1, h2, h3] at ht hs
              rw [hfind] at hs
              cases hs
              have hself : findState
                  (upsertState all
                    ⟨identityId, groupId, identityPublicKey, B.signPub (B.signSec skDraw),
                      some (B.signSec skDraw), B.rnd ckDraw, 0⟩)
                  identityId groupId identityPublicKey =
                  some ⟨identityId, groupId, identityPublicKey, B.signPub (B.signSec skDraw),
                    some (B.signSec skDraw), B.rnd ckDraw, 0⟩ := by
                simpa using findState_upsert_self all _
              rw [hself] at ht
              cases ht
              have h0 := hinv ex (findState_mem hfind).1
              show (0 : Int) ≤ ex.messageIndex
              exact h0
            · have heq := findState_upsert_other all
                ⟨identityId, groupId, identityPublicKey, B.signPub (B.signSec skDraw),
                  some (B.signSec skDraw), B.rnd ckDraw, 0⟩ i g k
                (fun hc => hkey ⟨hc.1.symm, hc.2.1.symm, hc.2.2.symm⟩)
              rw [heq] at ht
              rw [ht] at hs
              cases hs
              exact le_refl _
    | none =>
        simp only [ensureSelfSenderKeyState, hfind, Prod.mk.injEq] at hEns
        obtain ⟨-, hpost⟩ := hEns
        subst hpost
        refine ⟨storeNonneg_upsert hinv (by simp), ?_, ?_, ?_, ?_⟩
        · intro i g k hne
          exact findState_upsert_other all _ i g k
            (fun hc => hne ⟨hc.1.symm, hc.2.1.symm, hc.2.2.symm⟩)
        · intro existing hex hsome
          cases hex
        · intro existing hex hnone
          cases hex
        · intro i g k t s ht hs
          by_cases hkey : i = identityId ∧ g = groupId ∧ k = identityPublicKey
          · obtain ⟨h1, h2, h3⟩ := hkey
            rw [h1, h2, h3] at hs
            rw [hfind] at hs
            cases hs
          · have heq := findState_upsert_other all
              ⟨identityId, groupId, identityPublicKey, B.signPub (B.signSec skDraw),
                some (B.signSec skDraw), B.rnd ckDraw, 0⟩ i g k
              (fun hc => hkey ⟨hc.1.symm, hc.2.1.symm, hc.2.2.symm⟩)
            rw [heq] at ht
            rw [ht] at hs
            cases hs
            exact le_refl _

theorem senderKeys_index_invariants_witness :
    findState
        ((ensureSelfSenderKeyState
          [⟨("i"), ("g"), ("s"), B.signPub (B.signSec 1), none, B.rnd 5, 0⟩]
          ("i") ("g") ("s") 8 4).2) ("i") ("g") ("s") =
      some ⟨("i"), ("g"), ("s"), B.signPub (B.signSec 8), some (B.signSec 8), B.rnd 4, 0⟩ ∧
    (ensureSelfSenderKeyState
        [⟨("i"), ("g"), ("s"), B.signPub (B.signSec 1), some (B.signSec 1), B.rnd 5, 2⟩]
        ("i") ("g") ("s") 8 4).2 =
      [⟨("i"), ("g"), ("s"), B.signPub (B.signSec 1), some (B.signSec 1), B.rnd 5, 2⟩] :=
  ⟨((senderKeys_index_invariants
        [⟨("i"), ("g"), ("s"), B.signPub (B.signSec 1), none, B.rnd 5, 0⟩]
        (fun s hs => by
          simp only [List.mem_singleton] at hs
          subst hs
          decide)).2.2.2 ("i") ("g") ("s") 8 4
      (ensureSelfSenderKeyState
        [⟨("i"), ("g"), ("s"), B.signPub (B.signSec 1), none, B.rnd 5, 0⟩]
        ("i") ("g") ("s") 8 4).1
      (ensureSelfSenderKeyState
        [⟨("i"), ("g"), ("s"), B.signPub (B.signSec 1), none, B.rnd 5, 0⟩]
        ("i") ("g") ("s") 8 4).2 rfl).2.2.2.1
      ⟨("i"), ("g"), ("s"), B.signPub (B.signSec 1), none, B.rnd 5, 0⟩ (by decide) rfl,
    ((senderKeys_index_invariants
        [⟨("i"), ("g"), ("s"), B.signPub (B.signSec 1), some (B.signSec 1), B.rnd 5, 2⟩]
        (fun s hs => by
          simp only [List.mem_singleton] at hs
          subst hs
          decide)).2.2.2 ("i") ("g") ("s") 8 4
      (ensureSelfSenderKeyState
        [⟨("i"), ("g"), ("s"), B.signPub (B.signSec 1), some (B.signSec 1), B.rnd 5, 2⟩]
        ("i") ("g") ("s") 8 4).1
      (ensureSelfSenderKeyState
        [⟨("i"), ("g"), ("s"), B.signPub (B.signSec 1), some (B.signSec 1), B.rnd 5, 2⟩]
        ("i") ("g") ("s") 8 4).2 rfl).2.2.1
      ⟨("i"), ("g"), ("s"), B.signPub (B.signSec 1), some (B.signSec 1), B.rnd 5, 2⟩
      (by decide) rfl⟩

/-- Counterexample to claim C10 as stated: the stored `messageIndex` for
("me", "G", "myPub") is 1 after a bundle application followed by a
successful decrypt, yet a subsequent `ensureSelfSenderKeyState` call —
finding a state without a signing secret — regenerates the state and
stores `messageIndex = 0`: the index decreased across a sequence of the
listed public operations. -/
theorem ensure_resets_advanced_bundle_state :
    findState
        ((decryptGroupMessageFromPacket
          (saveSenderKeyBundle ([] : Store) ("me")
            ⟨("sender-key-bundle"), ("G"), ("myPub"), B.signPub (B.signSec 7), B.rnd 9⟩)
          ("me")
          ⟨("group-message"), ("G"), ("myPub"), B.signPub (B.signSec 7), 1, B.rnd 3,
            B.secretbox (B.hash32 (B.rnd 9) ("sender-key-msg")) (B.rnd 3) ("x"),
            B.signDetached
              (signedBytes ("G") ("myPub") (B.signPub (B.signSec 7)) 1
                (B.secretbox (B.hash32 (B.rnd 9) ("sender-key-msg")) (B.rnd 3) ("x")))
              (B.signSec 7)⟩).2)
        ("me") ("G") ("myPub") =
      some ⟨("me"), ("G"), ("myPub"), B.signPub (B.signSec 7), none,
        B.hash32 (B.rnd 9) ("sender-key-chain"), 1⟩ ∧
    findState
        ((ensureSelfSenderKeyState
          ((decryptGroupMessageFromPacket
            (saveSenderKeyBundle ([] : Store) ("me")
              ⟨("sender-key-bundle"), ("G"), ("myPub"), B.signPub (B.signSec 7), B.rnd 9⟩)
            ("me")
            ⟨("group-message"), ("G"), ("myPub"), B.signPub (B.signSec 7), 1, B.rnd 3,
              B.secretbox (B.hash32 (B.rnd 9) ("sender-key-msg")) (B.rnd 3) ("x"),
              B.signDetached
                (signedBytes ("G") ("myPub") (B.signPub (B.signSec 7)) 1
                  (B.secretbox (B.hash32 (B.rnd 9) ("sender-key-msg")) (B.rnd 3) ("x")))
                (B.signSec 7)⟩).2)
          ("me") ("G") ("myPub") 8 4).2)
        ("me") ("G") ("myPub") =
      some ⟨("me"), ("G"), ("myPub"), B.signPub (B.signSec 8), some (B.signSec 8),
        B.rnd 4, 0⟩ := by
  constructor
  · rfl
  · rfl
